import Mathlib

/-!
Verification of the teamchat relay server.

The embedding below follows the JavaScript sources of the repository.
The main model, in namespace TeamChat, embeds src/server.js; the variant
in namespace TeamChat.Part002 embeds the handleJoinTeam flow of the
unnamed source file part_002, which is the variant that carries an
authorKey gate on join-team.

Modelling conventions:
 - a WebSocket connection is an opaque identifier (Nat);
 - JavaScript Map and plain-object dictionaries become association lists
   with first-match lookup (mapGet), in-place update (mapSet) and
   key deletion (mapDel); JavaScript Set becomes a duplicate-free list
   with insertion-order add (setAdd) and delete (setDel);
 - Date.now() is passed into each event as an explicit Int;
 - the locale-formatted display timestamp string is display-only and is
   elided; the raw millisecond time _rawTime, which drives the cleanup
   sweep, is kept on every stored record;
 - outbound ws.send calls become an output list of (connection, message)
   pairs returned next to the new state.
-/

namespace TeamChat

abbrev ConnId := Nat

/-- A record stored in a history buffer: either a chat message (with the
author username, text, channel and raw time) or a system message. -/
inductive Record where
  | chat (username text channel : String) (rawTime : Int)
  | system (text : String) (rawTime : Int)
deriving DecidableEq

/-- The _rawTime field of a stored record, used by the cleanup sweep. -/
def Record.rawTime : Record → Int
  | .chat _ _ _ t => t
  | .system _ t => t

/-- An outbound frame sent to one client. -/
inductive OutMsg where
  | chatMsg (username text channel : String)
  | systemMsg (text : String)
  | authResponse (success : Bool) (code : Option String)
  | chatHistory (messages : List Record)
deriving DecidableEq

/-- Session state kept in the users map of src/server.js:
users.set(ws, \x7b username, teamCode: null, joined: true \x7d). -/
structure Session where
  username : String
  teamCode : Option String
  joined : Bool
deriving DecidableEq

/-- Map.get on an association list: first matching key. -/
def mapGet {α β : Type} [DecidableEq α] : List (α × β) → α → Option β
  | [], _ => none
  | (k', v) :: t, k => if k' = k then some v else mapGet t k

/-- Map.set on an association list: replace the binding if the key is
present, append it otherwise. -/
def mapSet {α β : Type} [DecidableEq α] : List (α × β) → α → β → List (α × β)
  | [], k, v => [(k, v)]
  | (k', v') :: t, k, v => if k' = k then (k, v) :: t else (k', v') :: mapSet t k v

/-- Map.delete on an association list. JavaScript Map keys are unique, so
deletion removes the key entirely. -/
def mapDel {α β : Type} [DecidableEq α] (m : List (α × β)) (k : α) : List (α × β) :=
  m.filter (fun p => p.1 ≠ k)

/-- Set.add: insertion-order add, no duplicates. -/
def setAdd (s : List ConnId) (x : ConnId) : List ConnId :=
  if x ∈ s then s else s ++ [x]

/-- Set.delete. -/
def setDel (s : List ConnId) (x : ConnId) : List ConnId :=
  s.filter (fun y => y ≠ x)

/-- The teamCodes table of src/server.js: access code to team name. -/
def teamCodes : List (String × String) :=
  [("[REKT]", "REKT"), ("[SMT]", "SMT")]

/-- const MAX_HISTORY = 100 in src/server.js. -/
def MAX_HISTORY : Nat := 100

/-- const MSG_LIFETIME_MS = 30 * 60 * 1000 in src/server.js. -/
def MSG_LIFETIME_MS : Int := 30 * 60 * 1000

/-- messageHistory[channel] with the JavaScript convention that a missing
property reads as an empty buffer. -/
def histGet (h : List (String × List Record)) (c : String) : List Record :=
  (mapGet h c).getD []

/-- The push-then-shift idiom used at every history append in src/server.js:
messageHistory[channel].push(msg); if (length > MAX_HISTORY) shift(). -/
def appendBounded (buf : List Record) (r : Record) : List Record :=
  if MAX_HISTORY < (buf ++ [r]).length then (buf ++ [r]).tail else buf ++ [r]

/-- The cleanup job body of src/server.js: for each channel, keep the
records with (now - msg._rawTime) < MSG_LIFETIME_MS. -/
def sweepHistory (h : List (String × List Record)) (now : Int) :
    List (String × List Record) :=
  h.map (fun p => (p.1, p.2.filter (fun msg => decide (now - msg.rawTime < MSG_LIFETIME_MS))))

/-- Full server state of src/server.js: wss.clients, the open sockets,
the users map, teamChannels and messageHistory. -/
structure ServerState where
  clients : List ConnId
  openConns : List ConnId
  users : List (ConnId × Session)
  teamChannels : List (String × List ConnId)
  messageHistory : List (String × List Record)
deriving DecidableEq

/-- readyState === WebSocket.OPEN. -/
def isOpen (st : ServerState) (c : ConnId) : Bool :=
  st.openConns.contains c

/-- broadcastMessage of src/server.js: send to every member of
wss.clients whose readyState is OPEN, with no joined check. -/
def broadcastMessage (st : ServerState) (m : OutMsg) : List (ConnId × OutMsg) :=
  (st.clients.filter (fun c => isOpen st c)).map (fun c => (c, m))

/-- forEach over a team channel set, sending to the open members. -/
def sendToSet (st : ServerState) (s : List ConnId) (m : OutMsg) : List (ConnId × OutMsg) :=
  (s.filter (fun c => isOpen st c)).map (fun c => (c, m))

/-- broadcastSystemMessage of src/server.js: append the system record to
the channel buffer (bounded), then broadcast to all open clients for the
global channel, else to the open members of that team channel set. -/
def broadcastSystemMessage (st : ServerState) (text channel : String) (now : Int) :
    ServerState × List (ConnId × OutMsg) :=
  let r := Record.system text now
  let st' := { st with
    messageHistory := mapSet st.messageHistory channel
      (appendBounded (histGet st.messageHistory channel) r) }
  let out :=
    if channel = "global" then broadcastMessage st' (OutMsg.systemMsg text)
    else sendToSet st' ((mapGet st'.teamChannels channel).getD []) (OutMsg.systemMsg text)
  (st', out)

/-- handleJoinTeam of src/server.js: if the user exists and its teamCode
already equals the requested code, add the socket to that team channel
set (creating it if absent) and send a private confirmation. -/
def handleJoinTeam (st : ServerState) (ws : ConnId) (code : String) :
    ServerState × List (ConnId × OutMsg) :=
  match mapGet st.users ws with
  | some u =>
      if u.teamCode = some code then
        let teamUsers := (mapGet st.teamChannels code).getD []
        let st' := { st with teamChannels := mapSet st.teamChannels code (setAdd teamUsers ws) }
        (st', [(ws, OutMsg.systemMsg
          ("Joined team channel for " ++ ((mapGet teamCodes code).getD "undefined")))])
      else (st, [])
  | none => (st, [])

/-- handleAuthRequest of src/server.js: if the code is in teamCodes, set
the session teamCode, reply auth-response success and fall through to
handleJoinTeam; otherwise reply auth-response failure. -/
def handleAuthRequest (st : ServerState) (ws : ConnId) (code : String) :
    ServerState × List (ConnId × OutMsg) :=
  match mapGet teamCodes code with
  | some _ =>
      match mapGet st.users ws with
      | some u =>
          let st' := { st with users := mapSet st.users ws { u with teamCode := some code } }
          let r := handleJoinTeam st' ws code
          (r.1, (ws, OutMsg.authResponse true (some code)) :: r.2)
      | none => (st, [])
  | none => (st, [(ws, OutMsg.authResponse false none)])

/-- handleChatMessage of src/server.js: build the chat record, append it
(bounded) to messageHistory[channel], then deliver: for channel team with
a teamCode, to the open members of the senders team set; for channel
global, broadcast to all open clients; otherwise deliver to nobody. -/
def handleChatMessage (st : ServerState) (ws : ConnId) (text channel : String) (now : Int) :
    ServerState × List (ConnId × OutMsg) :=
  match mapGet st.users ws with
  | some u =>
      let r := Record.chat u.username text channel now
      let st' := { st with
        messageHistory := mapSet st.messageHistory channel
          (appendBounded (histGet st.messageHistory channel) r) }
      let out :=
        if channel = "team" then
          match u.teamCode with
          | some tc => sendToSet st' ((mapGet st'.teamChannels tc).getD [])
              (OutMsg.chatMsg u.username text channel)
          | none => []
        else if channel = "global" then
          broadcastMessage st' (OutMsg.chatMsg u.username text channel)
        else []
      (st', out)
  | none => (st, [])

/-- sendHistory of src/server.js: reply with the channel buffer, empty
for an unknown channel, to the requester only. -/
def sendHistory (st : ServerState) (ws : ConnId) (channel : String) :
    List (ConnId × OutMsg) :=
  [(ws, OutMsg.chatHistory (histGet st.messageHistory channel))]

/-- The dispatch guard user?.joined used in the message switch. -/
def joinedUser (st : ServerState) (ws : ConnId) : Option Session :=
  match mapGet st.users ws with
  | some u => if u.joined then some u else none
  | none => none

/-- One inbound occurrence the server reacts to: a transport connection,
one of the five message types from a given socket, a transport close, or
a run of the periodic cleanup job. -/
inductive Event where
  | connect (ws : ConnId)
  | userJoin (ws : ConnId) (username : Option String) (now : Int)
  | authRequest (ws : ConnId) (code : String)
  | joinTeam (ws : ConnId) (code : String)
  | chatMessage (ws : ConnId) (text channel : String) (now : Int)
  | getHistory (ws : ConnId) (channel : String)
  | close (ws : ConnId) (now : Int)
  | sweep (now : Int)
deriving DecidableEq

/-- The close handler of src/server.js, together with the transport
effect of the closed socket leaving wss.clients and losing OPEN state:
if the socket has a session, broadcast the departure notice to the
global channel, remove the socket from its team channel set when it has
one, and delete the session. -/
def handleClose (st : ServerState) (ws : ConnId) (now : Int) :
    ServerState × List (ConnId × OutMsg) :=
  let st0 := { st with clients := setDel st.clients ws, openConns := setDel st.openConns ws }
  match mapGet st.users ws with
  | some u =>
      let r := broadcastSystemMessage st0 ("[" ++ u.username ++ "] left the chat.") "global" now
      let st2 :=
        match u.teamCode with
        | some tc =>
            match mapGet r.1.teamChannels tc with
            | some s => { r.1 with teamChannels := mapSet r.1.teamChannels tc (setDel s ws) }
            | none => r.1
        | none => r.1
      ({ st2 with users := mapDel st2.users ws }, r.2)
  | none => (st0, [])

/-- The event handlers of src/server.js, joined into one step function.
Returns the new state and the outbound sends of the step. -/
def applyEvent (st : ServerState) (e : Event) : ServerState × List (ConnId × OutMsg) :=
  match e with
  | .connect ws =>
      ({ st with clients := st.clients ++ [ws], openConns := st.openConns ++ [ws] }, [])
  | .userJoin ws username now =>
      let name := username.getD "AnonymousSnake"
      let st' := { st with users := mapSet st.users ws ⟨name, none, true⟩ }
      broadcastSystemMessage st' ("[" ++ name ++ "] joined the chat.") "global" now
  | .authRequest ws code =>
      if (joinedUser st ws).isSome then handleAuthRequest st ws code else (st, [])
  | .joinTeam ws code =>
      if (joinedUser st ws).isSome then handleJoinTeam st ws code else (st, [])
  | .chatMessage ws text channel now =>
      if (joinedUser st ws).isSome then handleChatMessage st ws text channel now else (st, [])
  | .getHistory ws channel =>
      if (joinedUser st ws).isSome then (st, sendHistory st ws channel) else (st, [])
  | .close ws now => handleClose st ws now
  | .sweep now =>
      ({ st with messageHistory := sweepHistory st.messageHistory now }, [])

/-- The process start state of src/server.js: no clients, no users, no
team channel sets, and the three predeclared empty history buffers. -/
def initState : ServerState :=
  { clients := [], openConns := [], users := [], teamChannels := [],
    messageHistory := [("global", []), ("[REKT]", []), ("[SMT]", [])] }

/-- Run a list of events from a state, discarding outputs. -/
def runFrom (st : ServerState) : List Event → ServerState
  | [] => st
  | e :: tr => runFrom (applyEvent st e).1 tr

/-- A state is reachable when some event sequence produces it from the
start state. -/
def Reachable (st : ServerState) : Prop :=
  ∃ tr : List Event, runFrom initState tr = st

/-- The member set of a team channel, empty when the set was never
created. -/
def teamMembers (st : ServerState) (t : String) : List ConnId :=
  (mapGet st.teamChannels t).getD []

/-- The teamCode of the session of a connection, none when the session
does not exist. -/
def sessionTeam (st : ServerState) (ws : ConnId) : Option String :=
  match mapGet st.users ws with
  | some u => u.teamCode
  | none => none

/-- The team code used by an event, when it is an auth-request or a
join-team: the only two events that can write a session teamCode or add
a connection to a team member set. -/
def eventTeamCodeUse : Event → Option (ConnId × String)
  | .authRequest ws code => some (ws, code)
  | .joinTeam ws code => some (ws, code)
  | _ => none

/-- Every channel buffer of a history store has length at most
MAX_HISTORY. -/
def HistBounded (h : List (String × List Record)) : Prop :=
  ∀ c : String, (histGet h c).length ≤ MAX_HISTORY

end TeamChat

namespace TeamChat.Part002

open TeamChat

/-- Session state of the part_002 variant: users.set(ws,
\x7b username: null, teamCode: null, joined: false \x7d) on connection. -/
structure P2Session where
  username : Option String
  teamCode : Option String
  joined : Bool
deriving DecidableEq

/-- One row of the teamCodes table of part_002: display code and the
shared-secret author key. -/
structure TeamEntry where
  code : String
  authorKey : String
deriving DecidableEq

/-- The teamCodes table of part_002. -/
def teamCodes : List (String × TeamEntry) :=
  [("[REKT]", ⟨"REKT", "authorKeyREKT"⟩), ("[SMT]", ⟨"SMT", "authorKeySMT"⟩)]

/-- The part of the part_002 server state that the join-team flow reads
and writes. -/
structure P2State where
  users : List (ConnId × P2Session)
  teamChannels : List (String × List ConnId)
  messageHistory : List (String × List Record)
deriving DecidableEq

/-- handleJoinTeam of part_002: silently ignore when the requester is
missing or unjoined; when the code is known and the author key matches,
set the session teamCode, add the socket to the team channel set, send a
private confirmation and the team channel history to the requester only;
otherwise reply with the cause-specific error text computed by the
ternary teamCodes[code] ? Invalid author key : Invalid team code. -/
def handleJoinTeam (st : P2State) (ws : ConnId) (code authorKey : String) :
    P2State × List (ConnId × OutMsg) :=
  match mapGet st.users ws with
  | none => (st, [])
  | some u =>
      if u.joined = false then (st, [])
      else
        match mapGet teamCodes code with
        | some entry =>
            if entry.authorKey = authorKey then
              let st' := { st with
                users := mapSet st.users ws { u with teamCode := some code },
                teamChannels := mapSet st.teamChannels code
                  (setAdd ((mapGet st.teamChannels code).getD []) ws) }
              (st', [(ws, OutMsg.systemMsg ("Joined team channel for " ++ entry.code)),
                     (ws, OutMsg.chatHistory (histGet st'.messageHistory code))])
            else (st, [(ws, OutMsg.systemMsg "Invalid author key.")])
        | none => (st, [(ws, OutMsg.systemMsg "Invalid team code.")])

end TeamChat.Part002

namespace TeamChat

/-! Basic lemmas about the association-list and set primitives. -/

theorem mapGet_mapSet {α β : Type} [DecidableEq α] (m : List (α × β)) (k : α) (v : β) (j : α) :
    mapGet (mapSet m k v) j = if k = j then some v else mapGet m j := by
  induction m with
  | nil => simp [mapGet, mapSet]
  | cons p t ih =>
      obtain ⟨a, b⟩ := p
      simp only [mapSet]
      by_cases hak : a = k
      · simp only [if_pos hak, mapGet]
        by_cases hkj : k = j
        · simp [hkj]
        · have haj : ¬ a = j := by rw [hak]; exact hkj
          simp [hkj, haj]
      · simp only [if_neg hak, mapGet, ih]
        by_cases haj : a = j
        · have hkj : ¬ k = j := fun h => hak (haj.trans h.symm)
          simp [haj, hkj]
        · by_cases hkj : k = j <;> simp [haj, hkj]

theorem mapGet_mapDel {α β : Type} [DecidableEq α] (m : List (α × β)) (k : α) (j : α) :
    mapGet (mapDel m k) j = if k = j then none else mapGet m j := by
  induction m with
  | nil => simp [mapGet, mapDel]
  | cons p t ih =>
      obtain ⟨a, b⟩ := p
      by_cases hak : a = k
      · have hdel : mapDel ((a, b) :: t) k = mapDel t k := by
          simp [mapDel, List.filter_cons, hak]
        rw [hdel, ih]
        by_cases hkj : k = j
        · simp [hkj]
        · have haj : ¬ a = j := by rw [hak]; exact hkj
          simp [hkj, mapGet, haj]
      · have hdel : mapDel ((a, b) :: t) k = (a, b) :: mapDel t k := by
          simp [mapDel, List.filter_cons, hak]
        rw [hdel]
        by_cases haj : a = j
        · have hkj : ¬ k = j := fun h => hak (haj.trans h.symm)
          simp [mapGet, haj, hkj]
        · simp [mapGet, haj, ih]

theorem mem_setAdd {s : List ConnId} {x y : ConnId} :
    x ∈ setAdd s y ↔ x ∈ s ∨ x = y := by
  unfold setAdd
  by_cases h : y ∈ s
  · simp only [if_pos h]
    constructor
    · exact Or.inl
    · rintro (hx | rfl)
      · exact hx
      · exact h
  · simp [if_neg h]

theorem mem_setDel {s : List ConnId} {x y : ConnId} :
    x ∈ setDel s y ↔ x ∈ s ∧ x ≠ y := by
  simp [setDel, List.mem_filter]

theorem histGet_mapSet (h : List (String × List Record)) (c : String) (buf : List Record)
    (j : String) :
    histGet (mapSet h c buf) j = if c = j then buf else histGet h j := by
  unfold histGet
  rw [mapGet_mapSet]
  by_cases hcj : c = j <;> simp [hcj]

theorem mapGet_sweepHistory (h : List (String × List Record)) (now : Int) (c : String) :
    mapGet (sweepHistory h now) c =
      (mapGet h c).map
        (List.filter (fun msg => decide (now - msg.rawTime < MSG_LIFETIME_MS))) := by
  induction h with
  | nil => simp [sweepHistory, mapGet]
  | cons p t ih =>
      obtain ⟨a, b⟩ := p
      by_cases hac : a = c
      · subst hac
        simp [sweepHistory, mapGet]
      · simp only [sweepHistory, List.map] at ih ⊢
        simp [mapGet, hac, ih]

theorem histGet_sweepHistory (h : List (String × List Record)) (now : Int) (c : String) :
    histGet (sweepHistory h now) c =
      (histGet h c).filter (fun msg => decide (now - msg.rawTime < MSG_LIFETIME_MS)) := by
  unfold histGet
  rw [mapGet_sweepHistory]
  cases mapGet h c <;> simp

theorem appendBounded_length {buf : List Record} (r : Record)
    (h : buf.length ≤ MAX_HISTORY) :
    (appendBounded buf r).length ≤ MAX_HISTORY := by
  unfold appendBounded
  by_cases hlen : MAX_HISTORY < (buf ++ [r]).length
  · rw [if_pos hlen]
    have htail : (buf ++ [r]).tail.length = (buf ++ [r]).length - 1 := List.length_tail _
    simp only [List.length_append, List.length_cons, List.length_nil] at htail
    omega
  · rw [if_neg hlen]
    exact Nat.le_of_not_lt hlen

theorem appendBounded_eq (buf : List Record) (r : Record) :
    appendBounded buf r = buf ++ [r] ∨
      (MAX_HISTORY ≤ buf.length ∧ appendBounded buf r = buf.tail ++ [r]) := by
  unfold appendBounded
  by_cases hlen : MAX_HISTORY < (buf ++ [r]).length
  · right
    have hlen' : MAX_HISTORY ≤ buf.length := by
      simp only [List.length_append, List.length_cons, List.length_nil] at hlen
      omega
    refine ⟨hlen', ?_⟩
    rw [if_pos hlen]
    cases buf with
    | nil => exact absurd hlen' (by simp [MAX_HISTORY])
    | cons b bs => simp
  · left
    rw [if_neg hlen]

/-! Preservation lemmas: which state fields each handler leaves alone. -/

theorem broadcastSystemMessage_users (st : ServerState) (text channel : String) (now : Int) :
    (broadcastSystemMessage st text channel now).1.users = st.users := rfl

theorem broadcastSystemMessage_teamChannels (st : ServerState) (text channel : String)
    (now : Int) :
    (broadcastSystemMessage st text channel now).1.teamChannels = st.teamChannels := rfl

theorem broadcastSystemMessage_messageHistory (st : ServerState) (text channel : String)
    (now : Int) :
    (broadcastSystemMessage st text channel now).1.messageHistory
      = mapSet st.messageHistory channel
          (appendBounded (histGet st.messageHistory channel) (Record.system text now)) := rfl

theorem handleJoinTeam_users (st : ServerState) (ws : ConnId) (code : String) :
    (handleJoinTeam st ws code).1.users = st.users := by
  unfold handleJoinTeam
  cases mapGet st.users ws with
  | none => rfl
  | some u =>
      by_cases h : u.teamCode = some code
      · simp [h]
      · simp [h]

theorem handleJoinTeam_messageHistory (st : ServerState) (ws : ConnId) (code : String) :
    (handleJoinTeam st ws code).1.messageHistory = st.messageHistory := by
  unfold handleJoinTeam
  cases mapGet st.users ws with
  | none => rfl
  | some u =>
      by_cases h : u.teamCode = some code
      · simp [h]
      · simp [h]

theorem handleAuthRequest_messageHistory (st : ServerState) (ws : ConnId) (code : String) :
    (handleAuthRequest st ws code).1.messageHistory = st.messageHistory := by
  unfold handleAuthRequest
  cases mapGet teamCodes code with
  | none => rfl
  | some tn =>
      cases mapGet st.users ws with
      | none => rfl
      | some u => simp [handleJoinTeam_messageHistory]

theorem handleChatMessage_users (st : ServerState) (ws : ConnId) (text channel : String)
    (now : Int) :
    (handleChatMessage st ws text channel now).1.users = st.users := by
  unfold handleChatMessage
  cases mapGet st.users ws with
  | none => rfl
  | some u => rfl

theorem handleChatMessage_teamChannels (st : ServerState) (ws : ConnId) (text channel : String)
    (now : Int) :
    (handleChatMessage st ws text channel now).1.teamChannels = st.teamChannels := by
  unfold handleChatMessage
  cases mapGet st.users ws with
  | none => rfl
  | some u => rfl

/-! Which events can put a connection into a team member set or write its
session teamCode: only auth-request and join-team, and only for the code
carried by the event. -/

theorem teamMembers_congr {st1 st2 : ServerState} (h : st1.teamChannels = st2.teamChannels)
    (t : String) :
    teamMembers st1 t = teamMembers st2 t := by
  unfold teamMembers
  rw [h]

theorem teamMembers_update (st : ServerState) (code : String) (s : List ConnId) (t : String) :
    teamMembers { st with teamChannels := mapSet st.teamChannels code s } t
      = if code = t then s else teamMembers st t := by
  unfold teamMembers
  simp only
  rw [mapGet_mapSet]
  by_cases h : code = t <;> simp [h]

theorem mem_teamMembers_handleJoinTeam {st : ServerState} {w : ConnId} {code : String}
    {ws : ConnId} {t : String}
    (h : ws ∈ teamMembers (handleJoinTeam st w code).1 t) :
    ws ∈ teamMembers st t ∨ (ws = w ∧ t = code) := by
  rcases hu : mapGet st.users w with _ | u
  · simp only [handleJoinTeam, hu] at h
    exact Or.inl h
  · by_cases hc : u.teamCode = some code
    · simp only [handleJoinTeam, hu, hc, if_pos] at h
      rw [teamMembers_update] at h
      by_cases hct : code = t
      · subst hct
        rw [if_pos rfl] at h
        rcases mem_setAdd.mp h with hin | rfl
        · exact Or.inl hin
        · exact Or.inr ⟨rfl, rfl⟩
      · rw [if_neg hct] at h
        exact Or.inl h
    · simp only [handleJoinTeam, hu, hc, if_neg] at h
      exact Or.inl h

theorem mem_teamMembers_handleAuthRequest {st : ServerState} {w : ConnId} {code : String}
    {ws : ConnId} {t : String}
    (h : ws ∈ teamMembers (handleAuthRequest st w code).1 t) :
    ws ∈ teamMembers st t ∨ (ws = w ∧ t = code) := by
  rcases htc : mapGet teamCodes code with _ | tn
  · simp only [handleAuthRequest, htc] at h
    exact Or.inl h
  · rcases hu : mapGet st.users w with _ | u
    · simp only [handleAuthRequest, htc, hu] at h
      exact Or.inl h
    · simp only [handleAuthRequest, htc, hu] at h
      rcases mem_teamMembers_handleJoinTeam h with hin | hr
      · exact Or.inl hin
      · exact Or.inr hr

theorem mem_teamMembers_handleClose {st : ServerState} {w : ConnId} {now : Int}
    {ws : ConnId} {t : String}
    (h : ws ∈ teamMembers (handleClose st w now).1 t) :
    ws ∈ teamMembers st t := by
  rcases hu : mapGet st.users w with _ | u
  · simp only [handleClose, hu] at h
    exact h
  · rcases hteam : u.teamCode with _ | tc
    · simp only [handleClose, hu, hteam] at h
      exact h
    · rcases hs : mapGet st.teamChannels tc with _ | s
      · simp only [handleClose, hu, hteam] at h
        rw [show (broadcastSystemMessage
              { st with clients := setDel st.clients w, openConns := setDel st.openConns w }
              ("[" ++ u.username ++ "] left the chat.") "global" now).1.teamChannels
            = st.teamChannels from rfl, hs] at h
        exact h
      · simp only [handleClose, hu, hteam] at h
        rw [show (broadcastSystemMessage
              { st with clients := setDel st.clients w, openConns := setDel st.openConns w }
              ("[" ++ u.username ++ "] left the chat.") "global" now).1.teamChannels
            = st.teamChannels from rfl, hs] at h
        have hmem : ws ∈ (if tc = t then setDel s w else teamMembers st t) := by
          rw [← teamMembers_update st tc (setDel s w) t]
          exact h
        by_cases hct : tc = t
        · rw [if_pos hct] at hmem
          have hws : ws ∈ s := (mem_setDel.mp hmem).1
          subst hct
          unfold teamMembers
          rw [hs]
          simpa using hws
        · rw [if_neg hct] at hmem
          exact hmem

theorem mem_teamMembers_applyEvent {st : ServerState} {e : Event} {ws : ConnId} {t : String}
    (h : ws ∈ teamMembers (applyEvent st e).1 t) :
    ws ∈ teamMembers st t ∨ eventTeamCodeUse e = some (ws, t) := by
  cases e with
  | connect w => exact Or.inl h
  | userJoin w name now => exact Or.inl h
  | authRequest w code =>
      by_cases hg : (joinedUser st w).isSome
      · simp only [applyEvent, hg, if_pos] at h
        rcases mem_teamMembers_handleAuthRequest h with hin | ⟨rfl, rfl⟩
        · exact Or.inl hin
        · exact Or.inr rfl
      · simp only [applyEvent, hg, if_neg] at h
        exact Or.inl h
  | joinTeam w code =>
      by_cases hg : (joinedUser st w).isSome
      · simp only [applyEvent, hg, if_pos] at h
        rcases mem_teamMembers_handleJoinTeam h with hin | ⟨rfl, rfl⟩
        · exact Or.inl hin
        · exact Or.inr rfl
      · simp only [applyEvent, hg, if_neg] at h
        exact Or.inl h
  | chatMessage w text channel now =>
      by_cases hg : (joinedUser st w).isSome
      · simp only [applyEvent, hg, if_pos] at h
        rcases hu : mapGet st.users w with _ | u
        · simp only [handleChatMessage, hu] at h
          exact Or.inl h
        · simp only [handleChatMessage, hu] at h
          exact Or.inl h
      · simp only [applyEvent, hg, if_neg] at h
        exact Or.inl h
  | getHistory w channel =>
      by_cases hg : (joinedUser st w).isSome
      · simp only [applyEvent, hg, if_pos] at h
        exact Or.inl h
      · simp only [applyEvent, hg, if_neg] at h
        exact Or.inl h
  | close w now => exact Or.inl (mem_teamMembers_handleClose h)
  | sweep now => exact Or.inl h

theorem handleClose_users (st : ServerState) (w : ConnId) (now : Int) :
    (handleClose st w now).1.users
      = match mapGet st.users w with
        | some _ => mapDel st.users w
        | none => st.users := by
  rcases hu : mapGet st.users w with _ | u
  · simp only [handleClose, hu]
  · rcases hteam : u.teamCode with _ | tc
    · simp only [handleClose, hu, hteam]
      rfl
    · rcases hs : mapGet st.teamChannels tc with _ | s
      · simp only [handleClose, hu, hteam]
        rw [show (broadcastSystemMessage
              { st with clients := setDel st.clients w, openConns := setDel st.openConns w }
              ("[" ++ u.username ++ "] left the chat.") "global" now).1.teamChannels
            = st.teamChannels from rfl, hs]
        rfl
      · simp only [handleClose, hu, hteam]
        rw [show (broadcastSystemMessage
              { st with clients := setDel st.clients w, openConns := setDel st.openConns w }
              ("[" ++ u.username ++ "] left the chat.") "global" now).1.teamChannels
            = st.teamChannels from rfl, hs]
        rfl

theorem sessionTeam_handleJoinTeam (st : ServerState) (w : ConnId) (code : String)
    (ws : ConnId) :
    sessionTeam (handleJoinTeam st w code).1 ws = sessionTeam st ws := by
  unfold sessionTeam
  rw [handleJoinTeam_users]

theorem sessionTeam_handleAuthRequest {st : ServerState} {w : ConnId} {code : String}
    {ws : ConnId} {t : String}
    (h : sessionTeam (handleAuthRequest st w code).1 ws = some t) :
    sessionTeam st ws = some t ∨ (ws = w ∧ t = code) := by
  rcases htc : mapGet teamCodes code with _ | tn
  · simp only [handleAuthRequest, htc] at h
    exact Or.inl h
  · rcases hu : mapGet st.users w with _ | u
    · simp only [handleAuthRequest, htc, hu] at h
      exact Or.inl h
    · simp only [handleAuthRequest, htc, hu] at h
      rw [sessionTeam_handleJoinTeam] at h
      unfold sessionTeam at h
      rw [show ({ st with users := mapSet st.users w { u with teamCode := some code } }
            : ServerState).users = mapSet st.users w { u with teamCode := some code } from rfl,
          mapGet_mapSet] at h
      by_cases hww : w = ws
      · rw [if_pos hww] at h
        simp only at h
        exact Or.inr ⟨hww.symm, by injection h with h; exact h.symm⟩
      · rw [if_neg hww] at h
        exact Or.inl h

theorem sessionTeam_handleClose {st : ServerState} {w : ConnId} {now : Int}
    {ws : ConnId} {t : String}
    (h : sessionTeam (handleClose st w now).1 ws = some t) :
    sessionTeam st ws = some t := by
  unfold sessionTeam at h ⊢
  rw [handleClose_users] at h
  rcases hu : mapGet st.users w with _ | u
  · rw [hu] at h
    exact h
  · rw [hu] at h
    simp only [mapGet_mapDel] at h
    by_cases hww : w = ws
    · rw [if_pos hww] at h
      simp at h
    · rw [if_neg hww] at h
      exact h

theorem sessionTeam_applyEvent {st : ServerState} {e : Event} {ws : ConnId} {t : String}
    (h : sessionTeam (applyEvent st e).1 ws = some t) :
    sessionTeam st ws = some t ∨ eventTeamCodeUse e = some (ws, t) := by
  cases e with
  | connect w => exact Or.inl h
  | userJoin w name now =>
      left
      unfold sessionTeam at h ⊢
      rw [show (applyEvent st (.userJoin w name now)).1.users
            = mapSet st.users w ⟨name.getD "AnonymousSnake", none, true⟩ from rfl,
          mapGet_mapSet] at h
      by_cases hww : w = ws
      · rw [if_pos hww] at h
        simp at h
      · rw [if_neg hww] at h
        exact h
  | authRequest w code =>
      by_cases hg : (joinedUser st w).isSome
      · simp only [applyEvent, hg, if_pos] at h
        rcases sessionTeam_handleAuthRequest h with h1 | ⟨rfl, rfl⟩
        · exact Or.inl h1
        · exact Or.inr rfl
      · simp only [applyEvent, hg, if_neg] at h
        exact Or.inl h
  | joinTeam w code =>
      by_cases hg : (joinedUser st w).isSome
      · simp only [applyEvent, hg, if_pos] at h
        rw [sessionTeam_handleJoinTeam] at h
        exact Or.inl h
      · simp only [applyEvent, hg, if_neg] at h
        exact Or.inl h
  | chatMessage w text channel now =>
      by_cases hg : (joinedUser st w).isSome
      · simp only [applyEvent, hg, if_pos] at h
        left
        unfold sessionTeam at h ⊢
        rw [handleChatMessage_users] at h
        exact h
      · simp only [applyEvent, hg, if_neg] at h
        exact Or.inl h
  | getHistory w channel =>
      by_cases hg : (joinedUser st w).isSome
      · simp only [applyEvent, hg, if_pos] at h
        exact Or.inl h
      · simp only [applyEvent, hg, if_neg] at h
        exact Or.inl h
  | close w now => exact Or.inl (sessionTeam_handleClose h)
  | sweep now => exact Or.inl h

theorem mem_teamMembers_runFrom :
    ∀ (tr : List Event) (st : ServerState) {ws : ConnId} {t : String},
      ws ∈ teamMembers (runFrom st tr) t →
      ws ∈ teamMembers st t ∨ (ws, t) ∈ tr.filterMap eventTeamCodeUse
  | [], _, _, _, h => Or.inl h
  | e :: tr, st, ws, t, h => by
      rcases mem_teamMembers_runFrom tr (applyEvent st e).1 h with h1 | h2
      · rcases mem_teamMembers_applyEvent h1 with h3 | h4
        · exact Or.inl h3
        · right
          simp [List.filterMap_cons, h4]
      · right
        cases he : eventTeamCodeUse e <;> simp [List.filterMap_cons, he, h2]

theorem sessionTeam_runFrom :
    ∀ (tr : List Event) (st : ServerState) {ws : ConnId} {t : String},
      sessionTeam (runFrom st tr) ws = some t →
      sessionTeam st ws = some t ∨ (ws, t) ∈ tr.filterMap eventTeamCodeUse
  | [], _, _, _, h => Or.inl h
  | e :: tr, st, ws, t, h => by
      rcases sessionTeam_runFrom tr (applyEvent st e).1 h with h1 | h2
      · rcases sessionTeam_applyEvent h1 with h3 | h4
        · exact Or.inl h3
        · right
          simp [List.filterMap_cons, h4]
      · right
        cases he : eventTeamCodeUse e <;> simp [List.filterMap_cons, he, h2]

/-! History-bound invariant machinery for the MAX_HISTORY claim. -/

theorem histBounded_append {h : List (String × List Record)}
    (hb : HistBounded h) (ch : String) (r : Record) :
    HistBounded (mapSet h ch (appendBounded (histGet h ch) r)) := by
  intro c
  rw [histGet_mapSet]
  by_cases hc : ch = c
  · rw [if_pos hc]
    exact appendBounded_length r (hb ch)
  · rw [if_neg hc]
    exact hb c

theorem handleChatMessage_messageHistory (st : ServerState) (ws : ConnId)
    (text channel : String) (now : Int) :
    (handleChatMessage st ws text channel now).1.messageHistory
      = match mapGet st.users ws with
        | some u => mapSet st.messageHistory channel
            (appendBounded (histGet st.messageHistory channel)
              (Record.chat u.username text channel now))
        | none => st.messageHistory := by
  unfold handleChatMessage
  cases mapGet st.users ws with
  | none => rfl
  | some u => rfl

theorem handleClose_messageHistory (st : ServerState) (w : ConnId) (now : Int) :
    (handleClose st w now).1.messageHistory
      = match mapGet st.users w with
        | some u => mapSet st.messageHistory "global"
            (appendBounded (histGet st.messageHistory "global")
              (Record.system ("[" ++ u.username ++ "] left the chat.") now))
        | none => st.messageHistory := by
  rcases hu : mapGet st.users w with _ | u
  · simp only [handleClose, hu]
  · rcases hteam : u.teamCode with _ | tc
    · simp only [handleClose, hu, hteam]
      rfl
    · rcases hs : mapGet st.teamChannels tc with _ | s
      · simp only [handleClose, hu, hteam]
        rw [show (broadcastSystemMessage
              { st with clients := setDel st.clients w, openConns := setDel st.openConns w }
              ("[" ++ u.username ++ "] left the chat.") "global" now).1.teamChannels
            = st.teamChannels from rfl, hs]
        rfl
      · simp only [handleClose, hu, hteam]
        rw [show (broadcastSystemMessage
              { st with clients := setDel st.clients w, openConns := setDel st.openConns w }
              ("[" ++ u.username ++ "] left the chat.") "global" now).1.teamChannels
            = st.teamChannels from rfl, hs]
        rfl

theorem histBounded_applyEvent {st : ServerState} (hb : HistBounded st.messageHistory)
    (e : Event) :
    HistBounded (applyEvent st e).1.messageHistory := by
  cases e with
  | connect w => exact hb
  | userJoin w name now =>
      rw [show (applyEvent st (.userJoin w name now)).1.messageHistory
            = mapSet st.messageHistory "global"
                (appendBounded (histGet st.messageHistory "global")
                  (Record.system ("[" ++ name.getD "AnonymousSnake" ++ "] joined the chat.") now))
            from rfl]
      exact histBounded_append hb _ _
  | authRequest w code =>
      by_cases hg : (joinedUser st w).isSome
      · simp only [applyEvent, hg, if_pos]
        rw [handleAuthRequest_messageHistory]
        exact hb
      · simp only [applyEvent, hg, if_neg]
        exact hb
  | joinTeam w code =>
      by_cases hg : (joinedUser st w).isSome
      · simp only [applyEvent, hg, if_pos]
        rw [handleJoinTeam_messageHistory]
        exact hb
      · simp only [applyEvent, hg, if_neg]
        exact hb
  | chatMessage w text channel now =>
      by_cases hg : (joinedUser st w).isSome
      · simp only [applyEvent, hg, if_pos]
        rw [handleChatMessage_messageHistory]
        rcases mapGet st.users w with _ | u
        · exact hb
        · exact histBounded_append hb _ _
      · simp only [applyEvent, hg, if_neg]
        exact hb
  | getHistory w channel =>
      by_cases hg : (joinedUser st w).isSome
      · simp only [applyEvent, hg, if_pos]
        exact hb
      · simp only [applyEvent, hg, if_neg]
        exact hb
  | close w now =>
      show HistBounded (handleClose st w now).1.messageHistory
      rw [handleClose_messageHistory]
      rcases mapGet st.users w with _ | u
      · exact hb
      · exact histBounded_append hb _ _
  | sweep now =>
      intro c
      show (histGet (sweepHistory st.messageHistory now) c).length ≤ MAX_HISTORY
      rw [histGet_sweepHistory]
      exact Nat.le_trans (List.length_filter_le _ _) (hb c)

theorem histBounded_runFrom :
    ∀ (tr : List Event) (st : ServerState), HistBounded st.messageHistory →
      HistBounded (runFrom st tr).messageHistory
  | [], _, hb => hb
  | e :: tr, st, hb => histBounded_runFrom tr (applyEvent st e).1 (histBounded_applyEvent hb e)

theorem histBounded_initState : HistBounded initState.messageHistory := by
  intro c
  simp only [initState, histGet, mapGet]
  split_ifs <;> simp [MAX_HISTORY]

/-- Claim C2, counterexample: the invariant fails on src/server.js. After
connection 1 joins and then successfully authenticates first for team
REKT and then for team SMT, the reachable final state has connection 1
simultaneously in both teams member sets, and the session teamCode,
first set to REKT, was changed to SMT by the second auth-request. -/
theorem c2_counterexample :
    Reachable (runFrom initState
      [.connect 1, .userJoin 1 (some "Alice") 0,
       .authRequest 1 "[REKT]", .authRequest 1 "[SMT]"]) ∧
    1 ∈ teamMembers (runFrom initState
      [.connect 1, .userJoin 1 (some "Alice") 0,
       .authRequest 1 "[REKT]", .authRequest 1 "[SMT]"]) "[REKT]" ∧
    1 ∈ teamMembers (runFrom initState
      [.connect 1, .userJoin 1 (some "Alice") 0,
       .authRequest 1 "[REKT]", .authRequest 1 "[SMT]"]) "[SMT]" ∧
    sessionTeam (runFrom initState
      [.connect 1, .userJoin 1 (some "Alice") 0,
       .authRequest 1 "[REKT]"]) 1 = some "[REKT]" ∧
    sessionTeam (runFrom initState
      [.connect 1, .userJoin 1 (some "Alice") 0,
       .authRequest 1 "[REKT]", .authRequest 1 "[SMT]"]) 1 = some "[SMT]" ∧
    "[REKT]" ≠ "[SMT]" := by
  refine ⟨⟨_, rfl⟩, ?_, ?_, ?_, ?_, ?_⟩ <;> decide

/-- Claim C2, amended: the one-team-at-a-time invariant holds exactly for
runs in which each connection only ever names a single team code across
its auth-request and join-team messages. For such runs, no connection is
in two different teams member sets in the final state, and a session
teamCode observed along the run never changes to a different team. A
second successful auth-request for a different code breaks both parts,
as the counterexample shows. -/
theorem c2_single_code_unique_team (tr : List Event)
    (hone : ∀ p ∈ tr.filterMap eventTeamCodeUse, ∀ q ∈ tr.filterMap eventTeamCodeUse,
      p.1 = q.1 → p.2 = q.2) :
    (∀ ws t1 t2, ws ∈ teamMembers (runFrom initState tr) t1 →
        ws ∈ teamMembers (runFrom initState tr) t2 → t1 = t2) ∧
    (∀ tr1 tr2 ws t1 t2, tr = tr1 ++ tr2 →
        sessionTeam (runFrom initState tr1) ws = some t1 →
        sessionTeam (runFrom initState tr) ws = some t2 → t1 = t2) := by
  constructor
  · intro ws t1 t2 h1 h2
    rcases mem_teamMembers_runFrom tr initState h1 with h | h
    · exact absurd h (by simp [teamMembers, initState, mapGet])
    rcases mem_teamMembers_runFrom tr initState h2 with h' | h'
    · exact absurd h' (by simp [teamMembers, initState, mapGet])
    exact hone _ h _ h' rfl
  · intro tr1 tr2 ws t1 t2 htr h1 h2
    rcases sessionTeam_runFrom tr1 initState h1 with h | h
    · simp [sessionTeam, initState, mapGet] at h
    rcases sessionTeam_runFrom tr initState h2 with h' | h'
    · simp [sessionTeam, initState, mapGet] at h'
    have hmem : (ws, t1) ∈ tr.filterMap eventTeamCodeUse := by
      rw [htr, List.filterMap_append]
      exact List.mem_append_left _ h
    exact hone _ hmem _ h' rfl

/-- Witness for the amended C2 theorem at the concrete single-team run
connect, user-join, auth-request REKT. -/
theorem c2_witness :
    (∀ p ∈ ([.connect 1, .userJoin 1 (some "Alice") 0, .authRequest 1 "[REKT]"]
        : List Event).filterMap eventTeamCodeUse,
      ∀ q ∈ ([.connect 1, .userJoin 1 (some "Alice") 0, .authRequest 1 "[REKT]"]
        : List Event).filterMap eventTeamCodeUse, p.1 = q.1 → p.2 = q.2) ∧
    1 ∈ teamMembers (runFrom initState
      [.connect 1, .userJoin 1 (some "Alice") 0, .authRequest 1 "[REKT]"]) "[REKT]" ∧
    "[REKT]" = "[REKT]" :=
  ⟨by decide, by decide,
    (c2_single_code_unique_team
      [.connect 1, .userJoin 1 (some "Alice") 0, .authRequest 1 "[REKT]"]
      (by decide)).1 1 "[REKT]" "[REKT]" (by decide) (by decide)⟩

/-- Claim C6: in every reachable state of src/server.js, every channel
history buffer has length at most MAX_HISTORY; every append goes through
the push-then-shift idiom (appendBounded), which preserves the bound. -/
theorem c6_history_bounded (st : ServerState) (h : Reachable st) :
    ∀ c : String, (histGet st.messageHistory c).length ≤ MAX_HISTORY := by
  obtain ⟨tr, rfl⟩ := h
  exact histBounded_runFrom tr initState histBounded_initState

/-- Witness for C6 at the start state and the global channel. -/
theorem c6_witness :
    Reachable initState ∧
    (histGet initState.messageHistory "global").length ≤ MAX_HISTORY :=
  ⟨⟨[], rfl⟩, c6_history_bounded initState ⟨[], rfl⟩ "global"⟩

/-- Claim C1, counterexample: the no-unjoined-recipient part fails on
src/server.js. Connection 2 is open but has no session (it never sent
user-join), yet broadcastMessage delivers the global chat message from
joined connection 1 to it, because the fan-out loop checks only
readyState and not the users map. -/
theorem c1_counterexample :
    mapGet (runFrom initState
      [.connect 1, .connect 2, .userJoin 1 (some "Alice") 0]).users 2 = none ∧
    2 ∈ (runFrom initState
      [.connect 1, .connect 2, .userJoin 1 (some "Alice") 0]).openConns ∧
    (2, OutMsg.chatMsg "Alice" "hi" "global")
      ∈ (applyEvent (runFrom initState
          [.connect 1, .connect 2, .userJoin 1 (some "Alice") 0])
          (.chatMessage 1 "hi" "global" 1)).2 := by
  refine ⟨?_, ?_, ?_⟩ <;> decide

/-- Claim C1, amended: a global chat message from a joined session is
delivered exactly to the connections that are in wss.clients and
currently open, including the sender and including open connections that
never joined; no closed connection receives it. -/
theorem c1_global_delivery (st : ServerState) (ws : ConnId) (u : Session)
    (text : String) (now : Int)
    (hu : mapGet st.users ws = some u) (hj : u.joined = true) :
    ∀ c : ConnId,
      (c, OutMsg.chatMsg u.username text "global")
          ∈ (applyEvent st (.chatMessage ws text "global" now)).2
        ↔ c ∈ st.clients ∧ c ∈ st.openConns := by
  intro c
  have hg : (joinedUser st ws).isSome = true := by
    simp [joinedUser, hu, hj]
  simp only [applyEvent, hg, if_pos]
  simp only [handleChatMessage, hu]
  rw [if_neg (by decide : ¬ ("global" : String) = "team")]
  simp only [if_true]
  simp only [broadcastMessage, List.mem_map, List.mem_filter, Prod.mk.injEq]
  constructor
  · rintro ⟨c', ⟨hc, hopen⟩, rfl, -⟩
    refine ⟨hc, ?_⟩
    simpa [isOpen, List.elem_iff] using hopen
  · rintro ⟨hc, hopen⟩
    exact ⟨c, ⟨hc, by simpa [isOpen, List.elem_iff] using hopen⟩, rfl, trivial⟩

/-- Witness for the amended C1 theorem: joined connection 1 sends a
global chat message in a two-connection state and the delivery iff holds
at recipient 2. -/
theorem c1_witness :
    mapGet (runFrom initState
        [.connect 1, .connect 2, .userJoin 1 (some "Alice") 0]).users 1
      = some ⟨"Alice", none, true⟩ ∧
    ((2, OutMsg.chatMsg "Alice" "hi" "global")
        ∈ (applyEvent (runFrom initState
            [.connect 1, .connect 2, .userJoin 1 (some "Alice") 0])
            (.chatMessage 1 "hi" "global" 5)).2
      ↔ 2 ∈ (runFrom initState
            [.connect 1, .connect 2, .userJoin 1 (some "Alice") 0]).clients ∧
        2 ∈ (runFrom initState
            [.connect 1, .connect 2, .userJoin 1 (some "Alice") 0]).openConns) :=
  ⟨by decide,
    c1_global_delivery (runFrom initState
        [.connect 1, .connect 2, .userJoin 1 (some "Alice") 0])
      1 ⟨"Alice", none, true⟩ "hi" 5 (by decide) rfl 2⟩

/-- Claim C3: a get-history request from any joined session is answered
with the full current buffer of the requested channel, whatever it is,
to the requester only, and the state does not change. The response does
not depend on the session teamCode or on any membership set, so any
joined session can read any team channel stored history; the session u
is arbitrary apart from joined = true. -/
theorem c3_history_no_membership_check (st : ServerState) (ws : ConnId) (u : Session)
    (channel : String) (hu : mapGet st.users ws = some u) (hj : u.joined = true) :
    (applyEvent st (.getHistory ws channel)).2
        = [(ws, OutMsg.chatHistory (histGet st.messageHistory channel))] ∧
    (applyEvent st (.getHistory ws channel)).1 = st := by
  have hg : (joinedUser st ws).isSome = true := by
    simp [joinedUser, hu, hj]
  simp only [applyEvent, hg, if_pos]
  exact ⟨rfl, trivial⟩

/-- Witness for C3: connection 1 is joined with no team, connection 2
stored a chat record in the REKT-keyed buffer, and the get-history reply
to connection 1 contains that record although 1 never authenticated. -/
theorem c3_witness :
    mapGet (runFrom initState
        [.connect 1, .connect 2, .userJoin 1 (some "Alice") 0,
         .userJoin 2 (some "Bob") 1, .chatMessage 2 "secret" "[REKT]" 2]).users 1
      = some ⟨"Alice", none, true⟩ ∧
    (applyEvent (runFrom initState
        [.connect 1, .connect 2, .userJoin 1 (some "Alice") 0,
         .userJoin 2 (some "Bob") 1, .chatMessage 2 "secret" "[REKT]" 2])
        (.getHistory 1 "[REKT]")).2
      = [(1, OutMsg.chatHistory [Record.chat "Bob" "secret" "[REKT]" 2])] :=
  ⟨by decide,
    (c3_history_no_membership_check (runFrom initState
        [.connect 1, .connect 2, .userJoin 1 (some "Alice") 0,
         .userJoin 2 (some "Bob") 1, .chatMessage 2 "secret" "[REKT]" 2])
      1 ⟨"Alice", none, true⟩ "[REKT]" (by decide) rfl).1⟩

/-- Claim C7: after the cleanup job runs at time now, every channel
buffer equals its filter by age; hence every surviving record is younger
than MSG_LIFETIME_MS, every removed record was not, and the surviving
records keep their relative order. -/
theorem c7_sweep_correct (st : ServerState) (now : Int) (c : String) :
    histGet (applyEvent st (.sweep now)).1.messageHistory c
        = (histGet st.messageHistory c).filter
            (fun r => decide (now - r.rawTime < MSG_LIFETIME_MS)) ∧
    (∀ r ∈ histGet (applyEvent st (.sweep now)).1.messageHistory c,
        now - r.rawTime < MSG_LIFETIME_MS) ∧
    (∀ r ∈ histGet st.messageHistory c,
        r ∉ histGet (applyEvent st (.sweep now)).1.messageHistory c →
        ¬ now - r.rawTime < MSG_LIFETIME_MS) ∧
    (histGet (applyEvent st (.sweep now)).1.messageHistory c).Sublist
      (histGet st.messageHistory c) := by
  have hfilter : histGet (applyEvent st (.sweep now)).1.messageHistory c
      = (histGet st.messageHistory c).filter
          (fun r => decide (now - r.rawTime < MSG_LIFETIME_MS)) :=
    histGet_sweepHistory st.messageHistory now c
  refine ⟨hfilter, ?_, ?_, ?_⟩
  · intro r hr
    rw [hfilter] at hr
    simpa using (List.mem_filter.mp hr).2
  · intro r hr hnot hlt
    rw [hfilter] at hnot
    exact hnot (List.mem_filter.mpr ⟨hr, by simpa using hlt⟩)
  · rw [hfilter]
    exact List.filter_sublist _

/-- Witness for C7: sweeping a buffer with one stale and one fresh
record at time 1800000 keeps exactly the fresh record. -/
theorem c7_witness :
    histGet (applyEvent
        ⟨[], [], [], [],
          [("global", [Record.system "old" 0, Record.system "new" 1000000])]⟩
        (.sweep 1800000)).1.messageHistory "global"
      = [Record.system "new" 1000000] := by
  rw [(c7_sweep_correct
      ⟨[], [], [], [],
        [("global", [Record.system "old" 0, Record.system "new" 1000000])]⟩
      1800000 "global").1]
  decide

/-- The push-then-shift append always ends with the appended record. -/
theorem appendBounded_getLast (buf : List Record) (r : Record) :
    (appendBounded buf r).getLast? = some r := by
  rcases appendBounded_eq buf r with h | ⟨hlen, h⟩
  · rw [h]
    exact List.getLast?_concat _
  · rw [h]
    exact List.getLast?_concat _

/-- Before the appended record, the buffer keeps the prior records, in
order: either all of them or all but the evicted head. -/
theorem appendBounded_dropLast (buf : List Record) (r : Record) :
    (appendBounded buf r).dropLast = buf ∨ (appendBounded buf r).dropLast = buf.tail := by
  rcases appendBounded_eq buf r with h | ⟨hlen, h⟩
  · left
    rw [h, List.dropLast_concat]
  · right
    rw [h, List.dropLast_concat]

/-- Appending the same record twice leaves two copies at the tail: the
element before the last is also that record. -/
theorem appendBounded_twice_getLast (buf : List Record) (r : Record) :
    (appendBounded (appendBounded buf r) r).dropLast.getLast? = some r := by
  rcases appendBounded_eq (appendBounded buf r) r with h | ⟨hlen, h⟩
  · rw [h, List.dropLast_concat]
    exact appendBounded_getLast buf r
  · rw [h, List.dropLast_concat]
    rcases appendBounded_eq buf r with h2 | ⟨hlen2, h2⟩ <;> rw [h2] at hlen ⊢
    · cases buf with
      | nil => simp [MAX_HISTORY] at hlen
      | cons b bs =>
          simp only [List.cons_append, List.tail_cons]
          exact List.getLast?_concat _
    · cases hbuf : buf.tail with
      | nil =>
          exfalso
          have hl : buf.tail.length = 0 := by rw [hbuf]; rfl
          rw [List.length_tail] at hl
          simp only [MAX_HISTORY] at hlen2
          omega
      | cons b bs =>
          simp only [List.cons_append, List.tail_cons]
          exact List.getLast?_concat _

/-- Claim C8: a chat message from a joined session appends its record at
the tail of the channel buffer that a later get reads: the new buffer is
appendBounded of the old one, its last element is the record, the
records before it are the prior buffer (or its tail after eviction) in
their prior order, and appending an identical record again yields two
distinct entries at the tail. -/
theorem c8_append_get (st : ServerState) (ws : ConnId) (u : Session)
    (text channel : String) (now : Int)
    (hu : mapGet st.users ws = some u) (hj : u.joined = true) :
    histGet (applyEvent st (.chatMessage ws text channel now)).1.messageHistory channel
        = appendBounded (histGet st.messageHistory channel)
            (Record.chat u.username text channel now) ∧
    (appendBounded (histGet st.messageHistory channel)
        (Record.chat u.username text channel now)).getLast?
      = some (Record.chat u.username text channel now) ∧
    ((appendBounded (histGet st.messageHistory channel)
          (Record.chat u.username text channel now)).dropLast
        = histGet st.messageHistory channel ∨
      (appendBounded (histGet st.messageHistory channel)
          (Record.chat u.username text channel now)).dropLast
        = (histGet st.messageHistory channel).tail) ∧
    (appendBounded (histGet st.messageHistory channel)
        (Record.chat u.username text channel now)).dropLast.Sublist
      (histGet st.messageHistory channel) ∧
    (appendBounded (appendBounded (histGet st.messageHistory channel)
          (Record.chat u.username text channel now))
        (Record.chat u.username text channel now)).getLast?
      = some (Record.chat u.username text channel now) ∧
    (appendBounded (appendBounded (histGet st.messageHistory channel)
          (Record.chat u.username text channel now))
        (Record.chat u.username text channel now)).dropLast.getLast?
      = some (Record.chat u.username text channel now) := by
  have hg : (joinedUser st ws).isSome = true := by
    simp [joinedUser, hu, hj]
  refine ⟨?_, appendBounded_getLast .., ?_, ?_, appendBounded_getLast .., appendBounded_twice_getLast ..⟩
  · simp only [applyEvent, hg, if_pos]
    rw [handleChatMessage_messageHistory, hu, histGet_mapSet, if_pos rfl]
  · exact appendBounded_dropLast ..
  · rcases appendBounded_dropLast (histGet st.messageHistory channel)
        (Record.chat u.username text channel now) with h | h
    · rw [h]
    · rw [h]
      exact List.tail_sublist _

/-- Witness for C8: after Alice sends hi on the global channel from the
one-user state, the global buffer ends with her record, preceded by the
prior system record. -/
theorem c8_witness :
    mapGet (runFrom initState [.connect 1, .userJoin 1 (some "Alice") 0]).users 1
      = some ⟨"Alice", none, true⟩ ∧
    histGet (applyEvent (runFrom initState [.connect 1, .userJoin 1 (some "Alice") 0])
        (.chatMessage 1 "hi" "global" 3)).1.messageHistory "global"
      = appendBounded
          (histGet (runFrom initState
            [.connect 1, .userJoin 1 (some "Alice") 0]).messageHistory "global")
          (Record.chat "Alice" "hi" "global" 3) :=
  ⟨by decide,
    (c8_append_get (runFrom initState [.connect 1, .userJoin 1 (some "Alice") 0])
      1 ⟨"Alice", none, true⟩ "hi" "global" 3 (by decide) rfl).1⟩

/-- Claim C9, counterexample: the user-join handler of src/server.js is
unconditional, so re-sending user-join from already-joined connection 1
broadcasts a second joined-the-chat system message and appends a second
system record to the global history (length 2 after two user-joins from
the same connection). -/
theorem c9_counterexample :
    (histGet ((runFrom initState
        [.connect 1, .userJoin 1 (some "Alice") 0,
         .userJoin 1 (some "Alice") 1]).messageHistory) "global").length = 2 ∧
    (applyEvent (runFrom initState [.connect 1, .userJoin 1 (some "Alice") 0])
        (.userJoin 1 (some "Alice") 1)).2
      = [(1, OutMsg.systemMsg "[Alice] joined the chat.")] := by
  refine ⟨?_, ?_⟩ <;> decide

/-- Claim C9, amended: re-sending user-join does update the display name
(and resets the session teamCode to null), but it also broadcasts another
joined-the-chat system message to every open client and appends another
system record to the global history, exactly as a first user-join does. -/
theorem c9_rejoin_broadcasts (st : ServerState) (ws : ConnId) (u : Session)
    (name : String) (now : Int)
    (_hu : mapGet st.users ws = some u) (_hj : u.joined = true) :
    mapGet (applyEvent st (.userJoin ws (some name) now)).1.users ws
        = some ⟨name, none, true⟩ ∧
    histGet (applyEvent st (.userJoin ws (some name) now)).1.messageHistory "global"
        = appendBounded (histGet st.messageHistory "global")
            (Record.system ("[" ++ name ++ "] joined the chat.") now) ∧
    (applyEvent st (.userJoin ws (some name) now)).2
        = (st.clients.filter (fun c => isOpen st c)).map
            (fun c => (c, OutMsg.systemMsg ("[" ++ name ++ "] joined the chat."))) := by
  refine ⟨?_, ?_, rfl⟩
  · rw [show (applyEvent st (.userJoin ws (some name) now)).1.users
        = mapSet st.users ws ⟨name, none, true⟩ from rfl]
    rw [mapGet_mapSet, if_pos rfl]
  · rw [show (applyEvent st (.userJoin ws (some name) now)).1.messageHistory
        = mapSet st.messageHistory "global"
            (appendBounded (histGet st.messageHistory "global")
              (Record.system ("[" ++ name ++ "] joined the chat.") now)) from rfl]
    rw [histGet_mapSet, if_pos rfl]

/-- Witness for the amended C9 theorem: connection 1 re-sends user-join
with a new name after joining as Alice. -/
theorem c9_witness :
    mapGet (runFrom initState [.connect 1, .userJoin 1 (some "Alice") 0]).users 1
      = some ⟨"Alice", none, true⟩ ∧
    mapGet (applyEvent (runFrom initState [.connect 1, .userJoin 1 (some "Alice") 0])
        (.userJoin 1 (some "Alicia") 4)).1.users 1
      = some ⟨"Alicia", none, true⟩ :=
  ⟨by decide,
    (c9_rejoin_broadcasts (runFrom initState [.connect 1, .userJoin 1 (some "Alice") 0])
      1 ⟨"Alice", none, true⟩ "Alicia" 4 (by decide) rfl).1⟩

/-- Claim C10, counterexample: the per-team buffers do not receive only
system messages. A joined session naming the channel string REKT
directly in a chat-message gets its chat record appended to the
REKT-keyed buffer (src/server.js never appends any system record to the
per-team buffers at all, since broadcastSystemMessage is only invoked
with the global channel). -/
theorem c10_counterexample :
    histGet ((runFrom initState
        [.connect 1, .userJoin 1 (some "Alice") 0,
         .chatMessage 1 "hi" "[REKT]" 1]).messageHistory) "[REKT]"
      = [Record.chat "Alice" "hi" "[REKT]" 1] := by
  decide

/-- Claim C10, amended: a chat-message with channel team from a joined
team member appends its record to the single buffer keyed by the literal
string team, shared by every team; every other channel buffer, in
particular the REKT- and SMT-keyed ones, is unchanged by it; delivery
fans out to the open members of the sender own teamCode member set; so
get-history on channel team returns the mixed team chat of all teams.
The per-team buffers receive no records from team-channel chat at all;
they gain a chat record only when a client names them directly as the
channel, and never gain a system record in src/server.js. -/
theorem c10_team_buffer_shared (st : ServerState) (ws : ConnId) (u : Session)
    (tc : String) (text : String) (now : Int)
    (hu : mapGet st.users ws = some u) (hj : u.joined = true)
    (htc : u.teamCode = some tc) :
    histGet (applyEvent st (.chatMessage ws text "team" now)).1.messageHistory "team"
        = appendBounded (histGet st.messageHistory "team")
            (Record.chat u.username text "team" now) ∧
    (∀ c : String, c ≠ "team" →
      histGet (applyEvent st (.chatMessage ws text "team" now)).1.messageHistory c
        = histGet st.messageHistory c) ∧
    (applyEvent st (.chatMessage ws text "team" now)).2
        = (((mapGet st.teamChannels tc).getD []).filter (fun c => isOpen st c)).map
            (fun c => (c, OutMsg.chatMsg u.username text "team")) := by
  have hg : (joinedUser st ws).isSome = true := by
    simp [joinedUser, hu, hj]
  refine ⟨?_, ?_, ?_⟩
  · simp only [applyEvent, hg, if_pos]
    rw [handleChatMessage_messageHistory, hu, histGet_mapSet, if_pos rfl]
  · intro c hc
    simp only [applyEvent, hg, if_pos]
    rw [handleChatMessage_messageHistory, hu, histGet_mapSet,
      if_neg (fun h => hc h.symm)]
  · simp only [applyEvent, hg, if_pos]
    simp only [handleChatMessage, hu]
    simp only [if_true]
    rw [htc]
    rfl

/-- Witness for the amended C10 theorem: REKT member 1 sends a team chat
message; the record lands in the team-keyed buffer and the REKT-keyed
buffer is untouched. -/
theorem c10_witness :
    mapGet (runFrom initState
        [.connect 1, .userJoin 1 (some "Alice") 0, .authRequest 1 "[REKT]"]).users 1
      = some ⟨"Alice", some "[REKT]", true⟩ ∧
    histGet (applyEvent (runFrom initState
        [.connect 1, .userJoin 1 (some "Alice") 0, .authRequest 1 "[REKT]"])
        (.chatMessage 1 "go" "team" 7)).1.messageHistory "[REKT]"
      = histGet ((runFrom initState
        [.connect 1, .userJoin 1 (some "Alice") 0,
         .authRequest 1 "[REKT]"]).messageHistory) "[REKT]" :=
  ⟨by decide,
    (c10_team_buffer_shared (runFrom initState
        [.connect 1, .userJoin 1 (some "Alice") 0, .authRequest 1 "[REKT]"])
      1 ⟨"Alice", some "[REKT]", true⟩ "[REKT]" "go" 7
      (by decide) rfl rfl).2.1 "[REKT]" (by decide)⟩

end TeamChat

namespace TeamChat.Part002

open TeamChat

/-- Claim C4, counterexample: in the part_002 variant the two
authentication failure causes are distinguishable in the reply itself.
From the same joined state, an unknown team code gets the reply Invalid
team code. while a known code with a wrong key gets Invalid author
key., and the two outward messages differ. -/
theorem c4_counterexample :
    (handleJoinTeam ⟨[(1, ⟨some "Alice", none, true⟩)], [],
        [("global", []), ("[REKT]", []), ("[SMT]", [])]⟩ 1 "[NOPE]" "authorKeyREKT").2
      = [(1, OutMsg.systemMsg "Invalid team code.")] ∧
    (handleJoinTeam ⟨[(1, ⟨some "Alice", none, true⟩)], [],
        [("global", []), ("[REKT]", []), ("[SMT]", [])]⟩ 1 "[REKT]" "wrong").2
      = [(1, OutMsg.systemMsg "Invalid author key.")] ∧
    OutMsg.systemMsg "Invalid team code." ≠ OutMsg.systemMsg "Invalid author key." := by
  refine ⟨?_, ?_, ?_⟩ <;> decide

/-- Claim C4, amended: a failed join-team reply does distinguish the
cause. An unknown team always produces the text Invalid team code., a
known team with a wrong author key always produces Invalid author key.,
and the two texts differ, so a client can tell which case occurred from
the reply alone (not only from server-side logs). -/
theorem c4_failure_text_distinguishes (st : P2State) (ws : ConnId)
    (u : P2Session) (code authorKey : String)
    (hu : mapGet st.users ws = some u) (hj : u.joined = true) :
    (mapGet teamCodes code = none →
      (handleJoinTeam st ws code authorKey).2
        = [(ws, OutMsg.systemMsg "Invalid team code.")]) ∧
    (∀ entry : TeamEntry, mapGet teamCodes code = some entry →
      entry.authorKey ≠ authorKey →
      (handleJoinTeam st ws code authorKey).2
        = [(ws, OutMsg.systemMsg "Invalid author key.")]) ∧
    ("Invalid team code." : String) ≠ "Invalid author key." := by
  have hjf : (u.joined = false) = False := by
    rw [hj]
    simp
  refine ⟨?_, ?_, by decide⟩
  · intro hnone
    simp only [handleJoinTeam, hu, hjf, if_false, hnone]
  · intro entry hentry hkey
    simp only [handleJoinTeam, hu, hjf, if_false, hentry, if_neg hkey]

/-- Witness for the amended C4 theorem at a concrete joined session,
unknown code NOPE and wrong key for REKT. -/
theorem c4_witness :
    mapGet (⟨[(1, ⟨some "Alice", none, true⟩)], [],
        [("global", []), ("[REKT]", []), ("[SMT]", [])]⟩ : P2State).users 1
      = some ⟨some "Alice", none, true⟩ ∧
    (handleJoinTeam ⟨[(1, ⟨some "Alice", none, true⟩)], [],
        [("global", []), ("[REKT]", []), ("[SMT]", [])]⟩ 1 "[NOPE]" "k").2
      = [(1, OutMsg.systemMsg "Invalid team code.")] :=
  ⟨by decide,
    (c4_failure_text_distinguishes
      ⟨[(1, ⟨some "Alice", none, true⟩)], [],
        [("global", []), ("[REKT]", []), ("[SMT]", [])]⟩
      1 ⟨some "Alice", none, true⟩ "[NOPE]" "k" (by decide) rfl).1 (by decide)⟩

/-- Claim C5: in the part_002 variant, a join-team that passes the gate
(known team, matching author key) from a joined session sets the session
teamCode, adds the socket to that team member set, and sends the
requester only a private confirmation followed by that team channel
current history; when the gate fails, the state is unchanged and the
requester alone gets one system error message. -/
theorem c5_join_team_effects (st : P2State) (ws : ConnId)
    (u : P2Session) (code authorKey : String)
    (hu : mapGet st.users ws = some u) (hj : u.joined = true) :
    (∀ entry : TeamEntry, mapGet teamCodes code = some entry →
      entry.authorKey = authorKey →
      mapGet (handleJoinTeam st ws code authorKey).1.users ws
          = some { u with teamCode := some code } ∧
      ws ∈ (mapGet (handleJoinTeam st ws code authorKey).1.teamChannels code).getD [] ∧
      (handleJoinTeam st ws code authorKey).2
        = [(ws, OutMsg.systemMsg ("Joined team channel for " ++ entry.code)),
           (ws, OutMsg.chatHistory (histGet st.messageHistory code))]) ∧
    ((∀ entry : TeamEntry, mapGet teamCodes code = some entry →
        entry.authorKey ≠ authorKey) →
      (handleJoinTeam st ws code authorKey).1 = st ∧
      ∃ t : String, (handleJoinTeam st ws code authorKey).2
        = [(ws, OutMsg.systemMsg t)]) := by
  have hjf : (u.joined = false) = False := by
    rw [hj]
    simp
  constructor
  · intro entry hentry hkey
    simp only [handleJoinTeam, hu, hjf, if_false, hentry, if_pos hkey]
    refine ⟨?_, ?_, trivial⟩
    · rw [mapGet_mapSet, if_pos rfl]
    · rw [mapGet_mapSet, if_pos rfl]
      exact mem_setAdd.mpr (Or.inr rfl)
  · intro hfail
    rcases hentry : mapGet teamCodes code with _ | entry
    · simp only [handleJoinTeam, hu, hjf, if_false, hentry]
      exact ⟨trivial, "Invalid team code.", rfl⟩
    · simp only [handleJoinTeam, hu, hjf, if_false, hentry,
        if_neg (hfail entry hentry)]
      exact ⟨trivial, "Invalid author key.", rfl⟩

/-- Witness for C5: REKT member key accepted for connection 1 from a
fresh joined state; the session teamCode becomes REKT and the socket
joins the REKT member set. -/
theorem c5_witness :
    mapGet (⟨[(1, ⟨some "Alice", none, true⟩)], [],
        [("global", []), ("[REKT]", []), ("[SMT]", [])]⟩ : P2State).users 1
      = some ⟨some "Alice", none, true⟩ ∧
    mapGet teamCodes "[REKT]" = some ⟨"REKT", "authorKeyREKT"⟩ ∧
    mapGet (handleJoinTeam ⟨[(1, ⟨some "Alice", none, true⟩)], [],
        [("global", []), ("[REKT]", []), ("[SMT]", [])]⟩
        1 "[REKT]" "authorKeyREKT").1.users 1
      = some ⟨some "Alice", some "[REKT]", true⟩ :=
  ⟨by decide, by decide,
    ((c5_join_team_effects
      ⟨[(1, ⟨some "Alice", none, true⟩)], [],
        [("global", []), ("[REKT]", []), ("[SMT]", [])]⟩
      1 ⟨some "Alice", none, true⟩ "[REKT]" "authorKeyREKT"
      (by decide) rfl).1 ⟨"REKT", "authorKeyREKT"⟩ (by decide) rfl).1⟩

end TeamChat.Part002
